import Mathlib

/-!
Verification of the bounded concurrent task queue with cooperative shutdown
described by the repository's multithreading notes
(`src/99_SummaryOutline/Multithreading.md`).

The repository ships only illustrative snippets (an unbounded `taskQueue`
with an atomic `stopWorkers` flag, and a producer/consumer pair with a
`finishedProducing` flag).  The bounded, lifecycle-managed
`BoundedQueue`/`WorkerPool` core is specified but not implemented in the
sources, so its operations are modelled here from the specification's
words; each such definition says so in its doc comment.  Every queue
operation executes its body while holding the queue's single internal
mutex, so an operation is one atomic step; a blocked condition-variable
wait is modelled by the `wouldBlock` outcome, meaning the caller re-runs
the operation when woken (the wait predicate is re-checked in a loop).

The two consumer loops that do exist in the sources (`workerFunction`,
section 11, and `consumer`, section 5) are embedded separately near the
end of the file for the pop-safety claim.
-/

/-- Modelled from the spec: the three-valued lifecycle state
`{OPEN, DRAINING, CLOSED}` of a `BoundedQueue`. -/
inductive LifecycleState where
  | OPEN
  | DRAINING
  | CLOSED
deriving DecidableEq

/-- Modelled from the spec: the `BoundedQueue` shared buffer — an ordered
sequence of pending tasks (FIFO), a maximum capacity `C`, and the
lifecycle state.  The spec's `count` attribute is the buffer's length. -/
structure BoundedQueue (α : Type) where
  capacity : Nat
  buffer : List α
  state : LifecycleState
deriving DecidableEq

/-- Modelled from the spec: `size()` returns the current count. -/
def size {α : Type} (q : BoundedQueue α) : Nat :=
  q.buffer.length

/-- Modelled from the spec: `isOpen()` inspection. -/
def isOpen {α : Type} (q : BoundedQueue α) : Bool :=
  q.state = .OPEN

/-- Modelled from the spec: a queue is created empty in `OPEN` state. -/
def initQueue (α : Type) (C : Nat) : BoundedQueue α :=
  ⟨C, [], .OPEN⟩

/-- Modelled from the spec: `shutdown(mode)` argument. -/
inductive ShutdownMode where
  | Graceful
  | Immediate
deriving DecidableEq

/-- Outcome of one atomic attempt of the blocking `enqueue`:
`ok` inserted, `queueClosed` rejected, `wouldBlock` the wait predicate
`count < C or state != OPEN` is false and the caller keeps waiting. -/
inductive EnqueueOutcome where
  | ok
  | queueClosed
  | wouldBlock
deriving DecidableEq

/-- Outcome of `tryEnqueue`. -/
inductive TryEnqueueOutcome where
  | ok
  | queueFullOrClosed
deriving DecidableEq

/-- Outcome of one atomic attempt of the blocking `dequeue`:
`got` an item was removed, `queueDrained` the queue is empty and shut
down, `wouldBlock` the wait predicate `count > 0 or state != OPEN` is
false and the caller keeps waiting. -/
inductive DequeueOutcome (α : Type) where
  | got (t : α)
  | queueDrained
  | wouldBlock
deriving DecidableEq

/-- Modelled from the spec: `enqueue(task)`.  The shutdown check comes
first (checked after any wait): if state is DRAINING or CLOSED the call
returns `queueClosed` and the task is not stored.  Otherwise, if a slot
is free the task is inserted at the tail; if the queue is full the
caller blocks (`wouldBlock`). -/
def enqueue {α : Type} (q : BoundedQueue α) (t : α) : BoundedQueue α × EnqueueOutcome :=
  if q.state = .OPEN then
    if q.buffer.length < q.capacity then
      ({ q with buffer := q.buffer ++ [t] }, .ok)
    else
      (q, .wouldBlock)
  else
    (q, .queueClosed)

/-- Modelled from the spec: `tryEnqueue(task)`, the non-blocking variant;
fails immediately if full or not OPEN. -/
def tryEnqueue {α : Type} (q : BoundedQueue α) (t : α) : BoundedQueue α × TryEnqueueOutcome :=
  if q.state = .OPEN ∧ q.buffer.length < q.capacity then
    ({ q with buffer := q.buffer ++ [t] }, .ok)
  else
    (q, .queueFullOrClosed)

/-- Modelled from the spec: `dequeue()`.  If an item is available it is
removed from the head (FIFO) even when the state is DRAINING (drain
semantics).  If the buffer is empty: when the state is still OPEN the
caller blocks, otherwise the call returns `queueDrained`. -/
def dequeue {α : Type} (q : BoundedQueue α) : BoundedQueue α × DequeueOutcome α :=
  match q.buffer with
  | [] =>
    if q.state = .OPEN then (q, .wouldBlock) else (q, .queueDrained)
  | t :: rest =>
    ({ q with buffer := rest }, .got t)

/-- Modelled from the spec: `shutdown(mode)`.  Graceful moves OPEN to
DRAINING (pending items still deliverable); Immediate moves any
non-CLOSED state to CLOSED and discards pending items.  Transitions are
monotonic and the call is idempotent. -/
def shutdown {α : Type} (q : BoundedQueue α) (m : ShutdownMode) : BoundedQueue α :=
  match m with
  | .Graceful => if q.state = .OPEN then { q with state := .DRAINING } else q
  | .Immediate => if q.state = .CLOSED then q else { q with state := .CLOSED, buffer := [] }

/-- One atomic queue operation, as issued by some thread while holding
the queue's mutex.  An arbitrary interleaving of producer, consumer and
shutdown threads is an arbitrary list of these operations. -/
inductive QueueOp (α : Type) where
  | enq (t : α)
  | tryEnq (t : α)
  | deq
  | shut (m : ShutdownMode)
deriving DecidableEq

/-- Effect of one atomic operation on the queue state. -/
def applyOp {α : Type} (q : BoundedQueue α) : QueueOp α → BoundedQueue α
  | .enq t => (enqueue q t).1
  | .tryEnq t => (tryEnqueue q t).1
  | .deq => (dequeue q).1
  | .shut m => shutdown q m

/-- Run a sequence of atomic operations from a starting queue. -/
def runOps {α : Type} (q : BoundedQueue α) (ops : List (QueueOp α)) : BoundedQueue α :=
  ops.foldl applyOp q

/-- Modelled from the spec: a single producer enqueues the tasks of a
list in order with no intervening dequeues; the result is `none` unless
every `enqueue` returned success. -/
def enqueueAll {α : Type} (q : BoundedQueue α) : List α → Option (BoundedQueue α)
  | [] => some q
  | t :: ts =>
    match enqueue q t with
    | (q', .ok) => enqueueAll q' ts
    | (_, .queueClosed) => none
    | (_, .wouldBlock) => none

/-- Modelled from the spec: perform `n` dequeues in a row, collecting the
items obtained in order (stopping if the queue blocks or drains). -/
def dequeueN {α : Type} (q : BoundedQueue α) : Nat → List α × BoundedQueue α
  | 0 => ([], q)
  | n + 1 =>
    match dequeue q with
    | (q', .got t) =>
      let r := dequeueN q' n
      (t :: r.1, r.2)
    | (q', .queueDrained) => ([], q')
    | (q', .wouldBlock) => ([], q')

/-- Modelled from the spec: outcome of invoking a task's callable body —
it either completes normally or raises a failure (an error code). -/
inductive BodyOutcome where
  | succeeds
  | raises (e : Nat)
deriving DecidableEq

/-- Modelled from the spec: a Task — an opaque identifier for diagnostics
and a callable body. -/
structure MTask where
  id : Nat
  body : BodyOutcome
deriving DecidableEq

/-- Modelled from the spec: executing a task's body, as seen by the
worker: either a normal return or a raised failure (`Except.error`). -/
def runBody (t : MTask) : Except Nat Unit :=
  match t.body with
  | .succeeds => .ok ()
  | .raises e => .error e

/-- Modelled from the spec: the worker loop run by `WorkerPool.start`:
dequeue; on success execute the task's body, catching and recording (not
propagating) any failure it raises, then proceed to the next dequeue; on
`queueDrained`, exit the loop.  Returns the ids of the tasks executed, in
order, and the recorded failures as `(task id, error)` pairs.  The
`wouldBlock` branch also returns; it is unreachable once the queue is no
longer OPEN, the only regime in which the loop is analysed. -/
def workerLoop (q : BoundedQueue MTask) : List Nat × List (Nat × Nat) :=
  match hdq : dequeue q with
  | (q', .got t) =>
    let r := workerLoop q'
    match runBody t with
    | .ok _ => (t.id :: r.1, r.2)
    | .error e => (t.id :: r.1, (t.id, e) :: r.2)
  | (_, .queueDrained) => ([], [])
  | (_, .wouldBlock) => ([], [])
termination_by q.buffer.length
decreasing_by
  cases hbuf : q.buffer with
  | nil =>
    simp only [dequeue, hbuf] at hdq
    by_cases h2 : q.state = .OPEN
    · rw [if_pos h2] at hdq
      simp at hdq
    · rw [if_neg h2] at hdq
      simp at hdq
  | cons t0 rest0 =>
    simp only [dequeue, hbuf] at hdq
    have hq : ({ q with buffer := rest0 } : BoundedQueue MTask) = q' :=
      congrArg Prod.fst hdq
    have hq2 : q'.buffer = rest0 := by rw [← hq]
    rw [hq2]
    simp

/-- Modelled from the spec: one worker thread of the pool — the ids of
the tasks it has executed, in order, and whether it has exited its
loop (task bodies are irrelevant to delivery counting, so pool tasks are
bare ids). -/
structure Worker where
  executed : List Nat
  stopped : Bool
deriving DecidableEq

/-- Modelled from the spec: the whole system — the shared `BoundedQueue`,
the pool's workers, and two ghost histories: `enqueued` records every
task whose `enqueue` returned success, `discarded` records the tasks
discarded by an Immediate shutdown. -/
structure PoolState where
  q : BoundedQueue Nat
  workers : List Worker
  enqueued : List Nat
  discarded : List Nat
deriving DecidableEq

/-- Modelled from the spec: a fresh system — an empty OPEN queue of
capacity `C` and `n` workers that have executed nothing. -/
def initPool (C n : Nat) : PoolState :=
  ⟨initQueue Nat C, List.replicate n ⟨[], false⟩, [], []⟩

/-- Task executions of a list of workers, concatenated. -/
def execList (ws : List Worker) : List Nat :=
  (ws.map Worker.executed).flatten

/-- All task executions, summed (concatenated) across all workers. -/
def execAll (s : PoolState) : List Nat :=
  execList s.workers

/-- Modelled from the spec: one atomic step of the system under an
arbitrary interleaving: a producer's successful enqueue, a still-running
worker's dequeue (obtaining a task, which it then executes, or the
drained signal, on which it exits), or a shutdown call in either mode.
Steps that change nothing (rejected enqueues, blocked waits) are omitted
because the resulting state is the same state. -/
inductive PoolStep : PoolState → PoolState → Prop where
  | enq (s : PoolState) (t : Nat) (q' : BoundedQueue Nat)
      (h : enqueue s.q t = (q', .ok)) :
      PoolStep s ⟨q', s.workers, s.enqueued ++ [t], s.discarded⟩
  | deqGot (s : PoolState) (pre post : List Worker) (w : Worker) (t : Nat)
      (q' : BoundedQueue Nat)
      (hw : s.workers = pre ++ w :: post) (hrun : w.stopped = false)
      (h : dequeue s.q = (q', .got t)) :
      PoolStep s ⟨q', pre ++ ⟨w.executed ++ [t], false⟩ :: post, s.enqueued, s.discarded⟩
  | deqDrained (s : PoolState) (pre post : List Worker) (w : Worker)
      (hw : s.workers = pre ++ w :: post) (hrun : w.stopped = false)
      (h : (dequeue s.q).2 = .queueDrained) :
      PoolStep s ⟨s.q, pre ++ ⟨w.executed, true⟩ :: post, s.enqueued, s.discarded⟩
  | shutGraceful (s : PoolState) :
      PoolStep s ⟨shutdown s.q .Graceful, s.workers, s.enqueued, s.discarded⟩
  | shutImmediate (s : PoolState) :
      PoolStep s ⟨shutdown s.q .Immediate, s.workers, s.enqueued,
        s.discarded ++ s.q.buffer⟩

/-- States reachable from a fresh system of capacity `C` with `n`
workers, under every interleaving of producers, workers and shutdown. -/
inductive PoolReachable (C n : Nat) : PoolState → Prop where
  | init : PoolReachable C n (initPool C n)
  | step (s s' : PoolState) :
      PoolReachable C n s → PoolStep s s' → PoolReachable C n s'

/-- Zero or more system steps. -/
abbrev PoolSteps (s s' : PoolState) : Prop :=
  Relation.ReflTransGen PoolStep s s'

/-- Modelled from the spec: the queue's single internal mutex together
with the shared state it guards; `lockHolder` is the thread currently
inside a critical section, if any. -/
structure LockedQueue where
  lockHolder : Option Nat
  q : BoundedQueue Nat
deriving DecidableEq

/-- Modelled from the spec: fine-grained steps of the threads sharing the
queue (producers, workers and the shutdown caller): a thread acquires the
mutex when it is free, releases a mutex it holds, or — only while holding
it — runs one queue operation's critical section, the only kind of step
that touches the buffer, the count or the lifecycle state. -/
inductive LockedStep : LockedQueue → LockedQueue → Prop where
  | acquire (s : LockedQueue) (tid : Nat) (h : s.lockHolder = none) :
      LockedStep s ⟨some tid, s.q⟩
  | release (s : LockedQueue) (tid : Nat) (h : s.lockHolder = some tid) :
      LockedStep s ⟨none, s.q⟩
  | critical (s : LockedQueue) (tid : Nat) (op : QueueOp Nat)
      (h : s.lockHolder = some tid) :
      LockedStep s ⟨some tid, applyOp s.q op⟩

/-- Direct embedding of `std::queue::front` on the snippet's buffer of
`int` tasks: undefined behaviour (`none`) on an empty queue. -/
def front? (buf : List Int) : Option Int :=
  buf.head?

/-- Direct embedding of `std::queue::pop`: undefined behaviour (`none`)
on an empty queue. -/
def pop? (buf : List Int) : Option (List Int) :=
  match buf with
  | [] => none
  | _ :: rest => some rest

/-- Action selected by the worker's critical section. -/
inductive WorkerAction where
  | exitLoop
  | process (task : Int) (rest : List Int)
  | idle
deriving DecidableEq

/-- Embedding of `workerFunction`'s critical section
(`src/99_SummaryOutline/Multithreading.md`, section 11, lines 450-466):
the code between the condition-variable wait returning and the unlock,
acting on one snapshot of `stopWorkers` and `taskQueue` taken while
`queueMutex` is held.  `front`/`pop` are the partial queue operations;
they are reached only behind the `!taskQueue.empty()` guard. -/
def workerCritical (stopWorkers : Bool) (taskQueue : List Int) : Option WorkerAction :=
  if stopWorkers ∧ taskQueue.isEmpty then
    some .exitLoop
  else if ¬ taskQueue.isEmpty then
    match front? taskQueue, pop? taskQueue with
    | some task, some rest => some (.process task rest)
    | _, _ => none
  else
    some .idle

/-- Action selected by one iteration of the consumer's inner loop. -/
inductive ConsumerAction where
  | consume (value : Int) (rest : List Int)
  | exitInner
deriving DecidableEq

/-- Embedding of `consumer`'s inner `while` iteration
(`src/99_SummaryOutline/Multithreading.md`, section 5, lines 236-244):
with `queueMutex` held, the loop condition `!dataQueue.empty()` is
evaluated on the current buffer, and only inside the loop body are
`front` and `pop` invoked, on that same buffer. -/
def consumerCritical (dataQueue : List Int) : Option ConsumerAction :=
  if ¬ dataQueue.isEmpty then
    match front? dataQueue, pop? dataQueue with
    | some value, some rest => some (.consume value rest)
    | _, _ => none
  else
    some .exitInner

theorem enqueue_not_open {α : Type} (q : BoundedQueue α) (t : α)
    (h : ¬ q.state = .OPEN) : enqueue q t = (q, .queueClosed) := by
  simp only [enqueue, if_neg h]

theorem enqueue_open_avail {α : Type} (q : BoundedQueue α) (t : α)
    (h1 : q.state = .OPEN) (h2 : q.buffer.length < q.capacity) :
    enqueue q t = ({ q with buffer := q.buffer ++ [t] }, .ok) := by
  simp only [enqueue, if_pos h1, if_pos h2]

theorem enqueue_open_full {α : Type} (q : BoundedQueue α) (t : α)
    (h1 : q.state = .OPEN) (h2 : ¬ q.buffer.length < q.capacity) :
    enqueue q t = (q, .wouldBlock) := by
  simp only [enqueue, if_pos h1, if_neg h2]

theorem tryEnqueue_fail {α : Type} (q : BoundedQueue α) (t : α)
    (h : ¬ (q.state = .OPEN ∧ q.buffer.length < q.capacity)) :
    tryEnqueue q t = (q, .queueFullOrClosed) := by
  simp only [tryEnqueue, if_neg h]

theorem tryEnqueue_ok {α : Type} (q : BoundedQueue α) (t : α)
    (h : q.state = .OPEN ∧ q.buffer.length < q.capacity) :
    tryEnqueue q t = ({ q with buffer := q.buffer ++ [t] }, .ok) := by
  simp only [tryEnqueue, if_pos h]

theorem dequeue_nil_open {α : Type} (q : BoundedQueue α)
    (h1 : q.buffer = []) (h2 : q.state = .OPEN) :
    dequeue q = (q, .wouldBlock) := by
  simp only [dequeue, h1, if_pos h2]

theorem dequeue_nil_not_open {α : Type} (q : BoundedQueue α)
    (h1 : q.buffer = []) (h2 : ¬ q.state = .OPEN) :
    dequeue q = (q, .queueDrained) := by
  simp only [dequeue, h1, if_neg h2]

theorem dequeue_cons {α : Type} (q : BoundedQueue α) (t : α) (rest : List α)
    (h : q.buffer = t :: rest) :
    dequeue q = ({ q with buffer := rest }, .got t) := by
  simp only [dequeue, h]

theorem shutdown_graceful_open {α : Type} (q : BoundedQueue α)
    (h : q.state = .OPEN) :
    shutdown q .Graceful = { q with state := .DRAINING } := by
  simp only [shutdown, if_pos h]

theorem shutdown_graceful_not_open {α : Type} (q : BoundedQueue α)
    (h : ¬ q.state = .OPEN) : shutdown q .Graceful = q := by
  simp only [shutdown, if_neg h]

theorem shutdown_immediate_closed {α : Type} (q : BoundedQueue α)
    (h : q.state = .CLOSED) : shutdown q .Immediate = q := by
  simp only [shutdown, if_pos h]

theorem shutdown_immediate_not_closed {α : Type} (q : BoundedQueue α)
    (h : ¬ q.state = .CLOSED) :
    shutdown q .Immediate = { q with state := .CLOSED, buffer := [] } := by
  simp only [shutdown, if_neg h]

theorem applyOp_capacity {α : Type} (q : BoundedQueue α) (op : QueueOp α) :
    (applyOp q op).capacity = q.capacity := by
  cases op with
  | enq t =>
    by_cases h1 : q.state = .OPEN
    · by_cases h2 : q.buffer.length < q.capacity
      · rw [applyOp, enqueue_open_avail q t h1 h2]
      · rw [applyOp, enqueue_open_full q t h1 h2]
    · rw [applyOp, enqueue_not_open q t h1]
  | tryEnq t =>
    by_cases h : q.state = .OPEN ∧ q.buffer.length < q.capacity
    · rw [applyOp, tryEnqueue_ok q t h]
    · rw [applyOp, tryEnqueue_fail q t h]
  | deq =>
    cases hbuf : q.buffer with
    | nil =>
      by_cases h2 : q.state = .OPEN
      · rw [applyOp, dequeue_nil_open q hbuf h2]
      · rw [applyOp, dequeue_nil_not_open q hbuf h2]
    | cons t rest =>
      rw [applyOp, dequeue_cons q t rest hbuf]
  | shut m =>
    cases m with
    | Graceful =>
      by_cases h : q.state = .OPEN
      · rw [applyOp, shutdown_graceful_open q h]
      · rw [applyOp, shutdown_graceful_not_open q h]
    | Immediate =>
      by_cases h : q.state = .CLOSED
      · rw [applyOp, shutdown_immediate_closed q h]
      · rw [applyOp, shutdown_immediate_not_closed q h]

theorem applyOp_length_le {α : Type} (q : BoundedQueue α) (op : QueueOp α)
    (h : q.buffer.length ≤ q.capacity) :
    (applyOp q op).buffer.length ≤ (applyOp q op).capacity := by
  rw [applyOp_capacity]
  cases op with
  | enq t =>
    by_cases h1 : q.state = .OPEN
    · by_cases h2 : q.buffer.length < q.capacity
      · rw [applyOp, enqueue_open_avail q t h1 h2]
        simpa using h2
      · rw [applyOp, enqueue_open_full q t h1 h2]; exact h
    · rw [applyOp, enqueue_not_open q t h1]; exact h
  | tryEnq t =>
    by_cases hc : q.state = .OPEN ∧ q.buffer.length < q.capacity
    · rw [applyOp, tryEnqueue_ok q t hc]
      simpa using hc.2
    · rw [applyOp, tryEnqueue_fail q t hc]; exact h
  | deq =>
    cases hbuf : q.buffer with
    | nil =>
      by_cases h2 : q.state = .OPEN
      · rw [applyOp, dequeue_nil_open q hbuf h2]; exact h
      · rw [applyOp, dequeue_nil_not_open q hbuf h2]; exact h
    | cons t rest =>
      rw [applyOp, dequeue_cons q t rest hbuf]
      rw [hbuf] at h
      simp only [List.length_cons] at h
      show rest.length ≤ q.capacity
      omega
  | shut m =>
    cases m with
    | Graceful =>
      by_cases h1 : q.state = .OPEN
      · rw [applyOp, shutdown_graceful_open q h1]; exact h
      · rw [applyOp, shutdown_graceful_not_open q h1]; exact h
    | Immediate =>
      by_cases h1 : q.state = .CLOSED
      · rw [applyOp, shutdown_immediate_closed q h1]; exact h
      · rw [applyOp, shutdown_immediate_not_closed q h1]
        show List.length [] ≤ q.capacity
        simp

theorem runOps_capacity {α : Type} (q : BoundedQueue α) (ops : List (QueueOp α)) :
    (runOps q ops).capacity = q.capacity := by
  induction ops generalizing q with
  | nil => rfl
  | cons op ops ih =>
    exact ((ih (applyOp q op)).trans (applyOp_capacity q op) :)

theorem runOps_length_le {α : Type} (q : BoundedQueue α) (ops : List (QueueOp α))
    (h : q.buffer.length ≤ q.capacity) :
    (runOps q ops).buffer.length ≤ (runOps q ops).capacity := by
  induction ops generalizing q with
  | nil => exact h
  | cons op ops ih =>
    exact (ih (applyOp q op) (applyOp_length_le q op h) :)

/-- C1: Bounded capacity invariant: for every queue constructed with
capacity `C ≥ 1` and every interleaving of operations, the buffered
count satisfies `0 ≤ count ≤ C`; in particular `size()` never exceeds
`C`, and when `count = C` an `enqueue` blocks (or is rejected) without
storing its item and `tryEnqueue` fails. -/
theorem bounded_capacity_invariant (C : Nat) (hC : 1 ≤ C)
    (ops : List (QueueOp Nat)) (t : Nat) :
    size (runOps (initQueue Nat C) ops) ≤ C ∧
    (size (runOps (initQueue Nat C) ops) = C →
      (enqueue (runOps (initQueue Nat C) ops) t).1 = runOps (initQueue Nat C) ops ∧
      (enqueue (runOps (initQueue Nat C) ops) t).2 ≠ .ok ∧
      (tryEnqueue (runOps (initQueue Nat C) ops) t).2 = .queueFullOrClosed) := by
  have hcap : (runOps (initQueue Nat C) ops).capacity = C := runOps_capacity _ _
  have hle : (runOps (initQueue Nat C) ops).buffer.length ≤
      (runOps (initQueue Nat C) ops).capacity :=
    runOps_length_le _ _ (by simp [initQueue])
  set q := runOps (initQueue Nat C) ops with hq
  refine ⟨by rw [size]; omega, fun hfull => ?_⟩
  have hnotlt : ¬ q.buffer.length < q.capacity := by
    rw [size] at hfull; omega
  have henq : (enqueue q t).1 = q ∧ (enqueue q t).2 ≠ .ok := by
    by_cases hst : q.state = .OPEN
    · rw [enqueue_open_full q t hst hnotlt]
      exact ⟨rfl, by simp⟩
    · rw [enqueue_not_open q t hst]
      exact ⟨rfl, by simp⟩
  refine ⟨henq.1, henq.2, ?_⟩
  rw [tryEnqueue_fail q t (fun hc => hnotlt hc.2)]

/-- Closed-form witness for `bounded_capacity_invariant` at `C = 1`,
`ops = [enq 7]`, `t = 9`. -/
theorem bounded_capacity_invariant_witness :
    1 ≤ 1 ∧
    (size (runOps (initQueue Nat 1) [QueueOp.enq 7]) ≤ 1 ∧
    (size (runOps (initQueue Nat 1) [QueueOp.enq 7]) = 1 →
      (enqueue (runOps (initQueue Nat 1) [QueueOp.enq 7]) 9).1 =
        runOps (initQueue Nat 1) [QueueOp.enq 7] ∧
      (enqueue (runOps (initQueue Nat 1) [QueueOp.enq 7]) 9).2 ≠ .ok ∧
      (tryEnqueue (runOps (initQueue Nat 1) [QueueOp.enq 7]) 9).2 = .queueFullOrClosed)) :=
  ⟨by decide, bounded_capacity_invariant 1 (by decide) [QueueOp.enq 7] 9⟩

/-- C2: Graceful drain semantics of `dequeue`: a dequeue that observes a
non-OPEN state while buffered items remain still removes and returns the
head item, and `dequeue` returns `queueDrained` exactly when the buffer
is empty and the state is no longer OPEN. -/
theorem dequeue_drain_semantics (q : BoundedQueue Nat) :
    (∀ t rest, q.buffer = t :: rest →
      dequeue q = ({ q with buffer := rest }, .got t)) ∧
    ((dequeue q).2 = .queueDrained ↔ q.buffer = [] ∧ q.state ≠ .OPEN) := by
  constructor
  · intro t rest hbuf
    exact dequeue_cons q t rest hbuf
  · cases hbuf : q.buffer with
    | nil =>
      by_cases hst : q.state = .OPEN
      · rw [dequeue_nil_open q hbuf hst]
        simp [hst]
      · rw [dequeue_nil_not_open q hbuf hst]
        simp [hbuf, hst]
    | cons t rest =>
      rw [dequeue_cons q t rest hbuf]
      simp [hbuf]

/-- Closed-form witness for `dequeue_drain_semantics` on a DRAINING
queue holding `[4, 5]`. -/
theorem dequeue_drain_semantics_witness :
    (∀ t rest, (⟨2, [4, 5], .DRAINING⟩ : BoundedQueue Nat).buffer = t :: rest →
      dequeue (⟨2, [4, 5], .DRAINING⟩ : BoundedQueue Nat) =
        ({ (⟨2, [4, 5], .DRAINING⟩ : BoundedQueue Nat) with buffer := rest }, .got t)) ∧
    ((dequeue (⟨2, [4, 5], .DRAINING⟩ : BoundedQueue Nat)).2 = .queueDrained ↔
      (⟨2, [4, 5], .DRAINING⟩ : BoundedQueue Nat).buffer = [] ∧
      (⟨2, [4, 5], .DRAINING⟩ : BoundedQueue Nat).state ≠ .OPEN) :=
  dequeue_drain_semantics ⟨2, [4, 5], .DRAINING⟩

/-- C3: Enqueue rejection after shutdown: an `enqueue` made while the
state is DRAINING or CLOSED returns `queueClosed` and leaves the queue
unchanged — the task is not stored, so the caller retains it. -/
theorem enqueue_rejected_after_shutdown (q : BoundedQueue Nat) (t : Nat)
    (h : q.state = .DRAINING ∨ q.state = .CLOSED) :
    enqueue q t = (q, .queueClosed) := by
  have hne : ¬ q.state = .OPEN := by
    rcases h with h | h <;> simp [h]
  simp only [enqueue, if_neg hne]

/-- Closed-form witness for `enqueue_rejected_after_shutdown` on a
DRAINING queue. -/
theorem enqueue_rejected_after_shutdown_witness :
    ((⟨2, [], .DRAINING⟩ : BoundedQueue Nat).state = .DRAINING ∨
      (⟨2, [], .DRAINING⟩ : BoundedQueue Nat).state = .CLOSED) ∧
    enqueue (⟨2, [], .DRAINING⟩ : BoundedQueue Nat) 3 =
      ((⟨2, [], .DRAINING⟩ : BoundedQueue Nat), .queueClosed) :=
  ⟨Or.inl rfl, enqueue_rejected_after_shutdown ⟨2, [], .DRAINING⟩ 3 (Or.inl rfl)⟩

theorem shutdown_state_ne_open {α : Type} (q : BoundedQueue α) (m : ShutdownMode) :
    (shutdown q m).state ≠ .OPEN := by
  cases m with
  | Graceful =>
    by_cases h : q.state = .OPEN
    · rw [shutdown_graceful_open q h]
      simp
    · rw [shutdown_graceful_not_open q h]
      exact h
  | Immediate =>
    by_cases h : q.state = .CLOSED
    · rw [shutdown_immediate_closed q h]
      simp [h]
    · rw [shutdown_immediate_not_closed q h]
      simp

theorem applyOp_state_ne_open {α : Type} (q : BoundedQueue α) (op : QueueOp α)
    (h : q.state ≠ .OPEN) : (applyOp q op).state ≠ .OPEN := by
  cases op with
  | enq t =>
    rw [applyOp, enqueue_not_open q t h]
    exact h
  | tryEnq t =>
    rw [applyOp, tryEnqueue_fail q t (fun hc => h hc.1)]
    exact h
  | deq =>
    cases hbuf : q.buffer with
    | nil =>
      rw [applyOp, dequeue_nil_not_open q hbuf h]
      exact h
    | cons t rest =>
      rw [applyOp, dequeue_cons q t rest hbuf]
      exact h
  | shut m => exact shutdown_state_ne_open q m

theorem runOps_state_ne_open {α : Type} (q : BoundedQueue α) (ops : List (QueueOp α))
    (h : q.state ≠ .OPEN) : (runOps q ops).state ≠ .OPEN := by
  induction ops generalizing q with
  | nil => exact h
  | cons op ops ih =>
    exact (ih (applyOp q op) (applyOp_state_ne_open q op h) :)

/-- C5: Shutdown wakes every waiter: after a `shutdown` call the state is
never OPEN again, no matter what operations follow, so the wait
predicates of `enqueue` and `dequeue` are permanently satisfied: any
previously blocked thread, once woken by the shutdown broadcast, re-runs
its operation and it completes (never `wouldBlock`), observing the new
state. -/
theorem shutdown_unblocks_all_waiters (q : BoundedQueue Nat) (m : ShutdownMode)
    (ops : List (QueueOp Nat)) (t : Nat) :
    (runOps (shutdown q m) ops).state ≠ .OPEN ∧
    (enqueue (runOps (shutdown q m) ops) t).2 ≠ .wouldBlock ∧
    (dequeue (runOps (shutdown q m) ops)).2 ≠ .wouldBlock := by
  have hne : (runOps (shutdown q m) ops).state ≠ .OPEN :=
    runOps_state_ne_open _ _ (shutdown_state_ne_open q m)
  refine ⟨hne, ?_, ?_⟩
  · rw [enqueue_not_open _ t hne]
    simp
  · cases hbuf : (runOps (shutdown q m) ops).buffer with
    | nil =>
      rw [dequeue_nil_not_open _ hbuf hne]
      simp
    | cons t rest =>
      rw [dequeue_cons _ t rest hbuf]
      simp

theorem enqueue_ok_inv {α : Type} (q q' : BoundedQueue α) (t : α)
    (h : enqueue q t = (q', .ok)) :
    q.state = .OPEN ∧ q.buffer.length < q.capacity ∧
    q' = { q with buffer := q.buffer ++ [t] } := by
  by_cases h1 : q.state = .OPEN
  · by_cases h2 : q.buffer.length < q.capacity
    · rw [enqueue_open_avail q t h1 h2] at h
      exact ⟨h1, h2, (congrArg Prod.fst h).symm⟩
    · rw [enqueue_open_full q t h1 h2] at h
      exact absurd (congrArg Prod.snd h) (by simp)
  · rw [enqueue_not_open q t h1] at h
    exact absurd (congrArg Prod.snd h) (by simp)

theorem dequeue_got_inv {α : Type} (q q' : BoundedQueue α) (t : α)
    (h : dequeue q = (q', .got t)) :
    ∃ rest, q.buffer = t :: rest ∧ q' = { q with buffer := rest } := by
  cases hbuf : q.buffer with
  | nil =>
    by_cases h2 : q.state = .OPEN
    · rw [dequeue_nil_open q hbuf h2] at h
      exact absurd (congrArg Prod.snd h) (by simp)
    · rw [dequeue_nil_not_open q hbuf h2] at h
      exact absurd (congrArg Prod.snd h) (by simp)
  | cons t0 rest =>
    rw [dequeue_cons q t0 rest hbuf] at h
    have h1 := congrArg Prod.fst h
    have h2 := congrArg Prod.snd h
    simp only [Prod.snd] at h2
    have h3 : t0 = t := by
      cases h2
      rfl
    exact ⟨rest, by rw [h3], h1.symm⟩


theorem enqueueAll_ok {α : Type} (ts : List α) (q qf : BoundedQueue α)
    (hst : q.state = .OPEN) (h : enqueueAll q ts = some qf) :
    qf.buffer = q.buffer ++ ts ∧ qf.state = .OPEN := by
  induction ts generalizing q with
  | nil =>
    simp only [enqueueAll, Option.some.injEq] at h
    rw [← h]
    exact ⟨by simp, hst⟩
  | cons t ts ih =>
    simp only [enqueueAll] at h
    by_cases h2 : q.buffer.length < q.capacity
    · rw [enqueue_open_avail q t hst h2] at h
      have hrec := ih { q with buffer := q.buffer ++ [t] } hst h
      refine ⟨?_, hrec.2⟩
      rw [hrec.1]
      simp
    · rw [enqueue_open_full q t hst h2] at h
      exact Option.noConfusion h

theorem dequeueN_buffer {α : Type} (l : List α) :
    ∀ q : BoundedQueue α, q.buffer = l → (dequeueN q l.length).1 = l := by
  induction l with
  | nil =>
    intro q h
    rfl
  | cons t rest ih =>
    intro q hbuf
    simp only [List.length_cons, dequeueN, dequeue_cons q t rest hbuf]
    rw [ih { q with buffer := rest } rfl]

/-- C6: FIFO delivery order: if a single producer successfully enqueues
the sequence `ts` of tasks into a fresh queue, with no intervening
dequeues, then performing `ts.length` dequeues yields exactly `ts` in
enqueue order — no reordering, no priority. -/
theorem fifo_delivery_order (C : Nat) (ts : List Nat) (qf : BoundedQueue Nat)
    (h : enqueueAll (initQueue Nat C) ts = some qf) :
    (dequeueN qf ts.length).1 = ts := by
  have h2 := enqueueAll_ok ts (initQueue Nat C) qf rfl h
  exact dequeueN_buffer ts qf (by simpa using h2.1)

/-- Closed-form witness for `fifo_delivery_order`: three tasks through a
capacity-3 queue come back in enqueue order. -/
theorem fifo_delivery_order_witness :
    enqueueAll (initQueue Nat 3) [10, 20, 30] =
      some (⟨3, [10, 20, 30], .OPEN⟩ : BoundedQueue Nat) ∧
    (dequeueN (⟨3, [10, 20, 30], .OPEN⟩ : BoundedQueue Nat) [10, 20, 30].length).1 =
      [10, 20, 30] :=
  ⟨by decide, fifo_delivery_order 3 [10, 20, 30] ⟨3, [10, 20, 30], .OPEN⟩ (by decide)⟩

/-- C9: Lock discipline on shared state: in the fine-grained model of the
threads sharing the queue (producers, workers, shutdown caller), any step
that changes the guarded shared state — buffer, count or lifecycle
state — is a critical-section step, taken while the stepping thread holds
the queue's single internal mutex; acquire and release steps never write
the shared state, and the mutex has at most one holder by construction. -/
theorem mutation_only_under_mutex (s s' : LockedQueue)
    (hstep : LockedStep s s') (hchg : s'.q ≠ s.q) :
    ∃ tid, s.lockHolder = some tid ∧ s'.lockHolder = some tid := by
  cases hstep with
  | acquire tid h => exact absurd rfl hchg
  | release tid h => exact absurd rfl hchg
  | critical tid op h => exact ⟨tid, h, rfl⟩

/-- Closed-form witness for `mutation_only_under_mutex`: thread 0 holds
the mutex and enqueues 5 into a fresh capacity-1 queue. -/
theorem mutation_only_under_mutex_witness :
    LockedStep ⟨some 0, initQueue Nat 1⟩ ⟨some 0, ⟨1, [5], .OPEN⟩⟩ ∧
    (⟨some 0, (⟨1, [5], .OPEN⟩ : BoundedQueue Nat)⟩ : LockedQueue).q ≠
      (⟨some 0, initQueue Nat 1⟩ : LockedQueue).q ∧
    ∃ tid, (⟨some 0, initQueue Nat 1⟩ : LockedQueue).lockHolder = some tid ∧
      (⟨some 0, (⟨1, [5], .OPEN⟩ : BoundedQueue Nat)⟩ : LockedQueue).lockHolder = some tid :=
  ⟨.critical ⟨some 0, initQueue Nat 1⟩ 0 (.enq 5) rfl, by decide,
    mutation_only_under_mutex ⟨some 0, initQueue Nat 1⟩ ⟨some 0, ⟨1, [5], .OPEN⟩⟩
      (.critical ⟨some 0, initQueue Nat 1⟩ 0 (.enq 5) rfl) (by decide)⟩

/-- C10: Pop-safety at the buffer: in both consumer loops of the source
(`workerFunction`, section 11, and `consumer`, section 5), `front()` and
`pop()` run inside the mutex-held critical section and only behind the
`!empty()` guard evaluated on the same locked snapshot of the buffer, so
the undefined empty-pop case (`none`) is unreachable for every snapshot:
both critical sections always produce an action. -/
theorem pop_safety_guarded :
    (∀ stopW buf, (workerCritical stopW buf).isSome = true) ∧
    (∀ buf, (consumerCritical buf).isSome = true) := by
  constructor
  · intro stopW buf
    cases buf with
    | nil => cases stopW <;> simp [workerCritical]
    | cons x rest => cases stopW <;> simp [workerCritical, front?, pop?]
  · intro buf
    cases buf with
    | nil => simp [consumerCritical]
    | cons x rest => simp [consumerCritical, front?, pop?]

theorem workerLoop_exit (q : BoundedQueue MTask)
    (h1 : q.buffer = []) (h2 : ¬ q.state = .OPEN) :
    workerLoop q = ([], []) := by
  unfold workerLoop
  split
  · rename_i q' t hdq
    rw [dequeue_nil_not_open q h1 h2] at hdq
    exact absurd (congrArg Prod.snd hdq) (by simp)
  · rfl
  · rfl

theorem workerLoop_step (q : BoundedQueue MTask) (t : MTask) (rest : List MTask)
    (hbuf : q.buffer = t :: rest) :
    workerLoop q =
      match runBody t with
      | .ok _ =>
        (t.id :: (workerLoop { q with buffer := rest }).1,
          (workerLoop { q with buffer := rest }).2)
      | .error e =>
        (t.id :: (workerLoop { q with buffer := rest }).1,
          (t.id, e) :: (workerLoop { q with buffer := rest }).2) := by
  conv_lhs => rw [workerLoop]
  split
  · rename_i q' t' hdq
    rw [dequeue_cons q t rest hbuf] at hdq
    have hfst : ({ q with buffer := rest } : BoundedQueue MTask) = q' :=
      congrArg Prod.fst hdq
    have hsnd : DequeueOutcome.got t = .got t' := congrArg Prod.snd hdq
    have ht : t = t' := by cases hsnd; rfl
    rw [← hfst, ← ht]
  · rename_i q0 hdq
    rw [dequeue_cons q t rest hbuf] at hdq
    exact absurd (congrArg Prod.snd hdq) (by simp)
  · rename_i q0 hdq
    rw [dequeue_cons q t rest hbuf] at hdq
    exact absurd (congrArg Prod.snd hdq) (by simp)

/-- C8: Task-failure isolation: running the worker loop over a draining
queue containing the tasks `ts`, every failure raised by a task body is
caught at the loop boundary and recorded as a `(task id, error)` pair,
never propagated (the loop is a total function returning normally), and
the worker proceeds past each failure to its next dequeue: every task in
`ts` — including every task after a failing one — is executed, and the
loop exits only through the drained signal. -/
theorem task_failure_isolation (C : Nat) (ts : List MTask) :
    workerLoop ⟨C, ts, .DRAINING⟩ =
      (ts.map MTask.id,
        ts.filterMap fun t =>
          match t.body with
          | .succeeds => none
          | .raises e => some (t.id, e)) := by
  induction ts with
  | nil =>
    rw [workerLoop_exit ⟨C, [], .DRAINING⟩ rfl (by simp)]
    simp
  | cons t rest ih =>
    rw [workerLoop_step ⟨C, t :: rest, .DRAINING⟩ t rest rfl]
    cases hb : t.body with
    | succeeds =>
      simp only [runBody, hb]
      rw [show ({ (⟨C, t :: rest, .DRAINING⟩ : BoundedQueue MTask) with buffer := rest } :
          BoundedQueue MTask) = ⟨C, rest, .DRAINING⟩ from rfl, ih]
      simp [hb]
    | raises e =>
      simp only [runBody, hb]
      rw [show ({ (⟨C, t :: rest, .DRAINING⟩ : BoundedQueue MTask) with buffer := rest } :
          BoundedQueue MTask) = ⟨C, rest, .DRAINING⟩ from rfl, ih]
      simp [hb]

theorem execList_decomp (pre post : List Worker) (w : Worker) :
    execList (pre ++ w :: post) = execList pre ++ (w.executed ++ execList post) := by
  simp [execList]

theorem poolStep_preserves_inv (s s' : PoolState) (hstep : PoolStep s s')
    (h1 : (s.enqueued : Multiset Nat) =
      (execAll s : Multiset Nat) + (s.q.buffer : Multiset Nat) +
        (s.discarded : Multiset Nat))
    (h2 : s.q.state = .CLOSED → s.q.buffer = []) :
    (s'.enqueued : Multiset Nat) =
      (execAll s' : Multiset Nat) + (s'.q.buffer : Multiset Nat) +
        (s'.discarded : Multiset Nat)
    ∧ (s'.q.state = .CLOSED → s'.q.buffer = []) := by
  cases hstep with
  | enq t q' h =>
    obtain ⟨hopen, hlt, hq⟩ := enqueue_ok_inv s.q q' t h
    subst hq
    constructor
    · show ((s.enqueued ++ [t] : List Nat) : Multiset Nat) =
        (execList s.workers : Multiset Nat) +
          ((s.q.buffer ++ [t] : List Nat) : Multiset Nat) +
          (s.discarded : Multiset Nat)
      simp only [← Multiset.coe_add]
      rw [show (execAll s : Multiset Nat) = (execList s.workers : Multiset Nat) from rfl] at h1
      rw [h1]
      abel
    · intro hc
      have hc2 : s.q.state = .CLOSED := hc
      rw [hopen] at hc2
      exact absurd hc2 (by simp)
  | deqGot pre post w t q' hw hrun h =>
    obtain ⟨rest, hbuf, hq⟩ := dequeue_got_inv s.q q' t h
    subst hq
    constructor
    · show (s.enqueued : Multiset Nat) =
        (execList (pre ++ ⟨w.executed ++ [t], false⟩ :: post) : Multiset Nat) +
          (rest : Multiset Nat) + (s.discarded : Multiset Nat)
      rw [show (execAll s : Multiset Nat) =
        (execList (pre ++ w :: post) : Multiset Nat) from by rw [execAll, hw]] at h1
      rw [hbuf] at h1
      rw [execList_decomp, h1, execList_decomp]
      show (execList pre : Multiset Nat) + ↑(w.executed ++ execList post) +
          ↑(t :: rest) + ↑s.discarded =
        ↑(execList pre ++ ((w.executed ++ [t]) ++ execList post)) + ↑rest + ↑s.discarded
      simp only [← Multiset.coe_add, ← Multiset.cons_coe, ← Multiset.singleton_add]
      abel
    · intro hc
      have hc2 : s.q.state = .CLOSED := hc
      have := h2 hc2
      rw [this] at hbuf
      exact List.noConfusion hbuf
  | deqDrained pre post w hw hrun h =>
    constructor
    · show (s.enqueued : Multiset Nat) =
        (execList (pre ++ ⟨w.executed, true⟩ :: post) : Multiset Nat) +
          (s.q.buffer : Multiset Nat) + (s.discarded : Multiset Nat)
      rw [show (execAll s : Multiset Nat) =
        (execList (pre ++ w :: post) : Multiset Nat) from by rw [execAll, hw]] at h1
      rw [execList_decomp]
      rw [execList_decomp] at h1
      exact h1
    · exact h2
  | shutGraceful =>
    by_cases hopen : s.q.state = .OPEN
    · rw [shutdown_graceful_open s.q hopen]
      constructor
      · exact h1
      · intro hc
        exact absurd hc (by simp)
    · rw [shutdown_graceful_not_open s.q hopen]
      exact ⟨h1, h2⟩
  | shutImmediate =>
    by_cases hclosed : s.q.state = .CLOSED
    · rw [shutdown_immediate_closed s.q hclosed]
      have hbuf := h2 hclosed
      constructor
      · rw [hbuf]
        rw [hbuf] at h1
        simpa using h1
      · exact h2
    · rw [shutdown_immediate_not_closed s.q hclosed]
      constructor
      · show (s.enqueued : Multiset Nat) =
          (execAll s : Multiset Nat) + (([] : List Nat) : Multiset Nat) +
            ((s.discarded ++ s.q.buffer : List Nat) : Multiset Nat)
        rw [h1]
        simp only [← Multiset.coe_add]
        abel
      · intro
        rfl

theorem poolReachable_inv (C n : Nat) (s : PoolState) (h : PoolReachable C n s) :
    (s.enqueued : Multiset Nat) =
      (execAll s : Multiset Nat) + (s.q.buffer : Multiset Nat) +
        (s.discarded : Multiset Nat)
    ∧ (s.q.state = .CLOSED → s.q.buffer = []) := by
  induction h with
  | init =>
    constructor
    · show (([] : List Nat) : Multiset Nat) =
        (execList (List.replicate n ⟨[], false⟩) : Multiset Nat) +
          (([] : List Nat) : Multiset Nat) + (([] : List Nat) : Multiset Nat)
      have he : execList (List.replicate n ⟨[], false⟩) = [] := by
        induction n with
        | zero => rfl
        | succ k ih =>
          simp only [List.replicate_succ, execList, List.map_cons, List.flatten_cons]
          simpa [execList] using ih
      rw [he]
      simp
    · intro hc
      exact absurd hc (by simp [initPool, initQueue])
  | step s s' hr hstep ih => exact poolStep_preserves_inv s s' hstep ih.1 ih.2

/-- C7: Exactly-once delivery: in every reachable system state in which
the buffer has been fully drained and no Immediate shutdown has discarded
anything, the executions summed across all workers are exactly the
successfully enqueued tasks: equal in number, equal as multisets (so no
task is executed zero times or twice), and, when the enqueued tasks are
pairwise distinct, no task appears in two workers' execution lists. -/
theorem exactly_once_delivery (C n : Nat) (s : PoolState)
    (hr : PoolReachable C n s) (hempty : s.q.buffer = []) (hdisc : s.discarded = []) :
    (execAll s).length = s.enqueued.length ∧
    (s.enqueued : Multiset Nat) = (execAll s : Multiset Nat) ∧
    (s.enqueued.Nodup → (execAll s).Nodup) := by
  have hinv := (poolReachable_inv C n s hr).1
  rw [hempty, hdisc] at hinv
  simp only [Multiset.coe_nil, add_zero] at hinv
  refine ⟨?_, hinv, ?_⟩
  · have hcard := congrArg Multiset.card hinv
    simp only [Multiset.coe_card] at hcard
    exact hcard.symm
  · intro hnd
    have hmnd : Multiset.Nodup (execAll s : Multiset Nat) := by
      rw [← hinv]
      exact Multiset.coe_nodup.2 hnd
    exact Multiset.coe_nodup.1 hmnd

/-- Closed-form witness for `exactly_once_delivery`: one producer
enqueues task 5, the single worker dequeues and executes it. -/
theorem exactly_once_delivery_witness :
    (execAll ⟨⟨2, [], .OPEN⟩, [⟨[5], false⟩], [5], []⟩).length =
      ([5] : List Nat).length ∧
    (([5] : List Nat) : Multiset Nat) =
      (execAll ⟨⟨2, [], .OPEN⟩, [⟨[5], false⟩], [5], []⟩ : Multiset Nat) ∧
    (([5] : List Nat).Nodup →
      (execAll ⟨⟨2, [], .OPEN⟩, [⟨[5], false⟩], [5], []⟩).Nodup) :=
  exactly_once_delivery 2 1 ⟨⟨2, [], .OPEN⟩, [⟨[5], false⟩], [5], []⟩
    (.step _ _ (.step _ _ .init (.enq _ 5 _ rfl))
      (.deqGot _ [] [] ⟨[], false⟩ 5 ⟨2, [], .OPEN⟩ rfl rfl rfl))
    rfl rfl

theorem poolStep_closed_frozen (s s' : PoolState) (hstep : PoolStep s s')
    (hclosed : s.q.state = .CLOSED) (hempty : s.q.buffer = []) :
    s'.q.state = .CLOSED ∧ s'.q.buffer = [] ∧ execAll s' = execAll s := by
  cases hstep with
  | enq t q' h =>
    obtain ⟨hopen, _, _⟩ := enqueue_ok_inv s.q q' t h
    rw [hopen] at hclosed
    exact absurd hclosed (by simp)
  | deqGot pre post w t q' hw hrun h =>
    obtain ⟨rest, hbuf, _⟩ := dequeue_got_inv s.q q' t h
    rw [hempty] at hbuf
    exact List.noConfusion hbuf
  | deqDrained pre post w hw hrun h =>
    refine ⟨hclosed, hempty, ?_⟩
    show execList (pre ++ ⟨w.executed, true⟩ :: post) = execAll s
    rw [execAll, hw, execList_decomp, execList_decomp]
  | shutGraceful =>
    have hno : ¬ s.q.state = .OPEN := by rw [hclosed]; simp
    rw [shutdown_graceful_not_open s.q hno]
    exact ⟨hclosed, hempty, rfl⟩
  | shutImmediate =>
    rw [shutdown_immediate_closed s.q hclosed]
    exact ⟨hclosed, hempty, rfl⟩

theorem poolSteps_closed_frozen (s s' : PoolState) (hsteps : PoolSteps s s')
    (hclosed : s.q.state = .CLOSED) (hempty : s.q.buffer = []) :
    s'.q.state = .CLOSED ∧ s'.q.buffer = [] ∧ execAll s' = execAll s := by
  induction hsteps with
  | refl => exact ⟨hclosed, hempty, rfl⟩
  | tail hmid hlast ih =>
    obtain ⟨h1, h2, h3⟩ := ih
    obtain ⟨g1, g2, g3⟩ := poolStep_closed_frozen _ _ hlast h1 h2
    exact ⟨g1, g2, g3.trans h3⟩

theorem pool_can_stop_all : ∀ (k : Nat) (s : PoolState),
    (s.workers.countP fun w => !w.stopped) = k →
    s.q.state = .CLOSED → s.q.buffer = [] →
    ∃ s', PoolSteps s s' ∧ (∀ w ∈ s'.workers, w.stopped = true) ∧
      execAll s' = execAll s := by
  intro k
  induction k using Nat.strong_induction_on with
  | _ k ih =>
    intro s hk hclosed hempty
    by_cases hall : ∀ w ∈ s.workers, w.stopped = true
    · exact ⟨s, .refl, hall, rfl⟩
    · push_neg at hall
      obtain ⟨w, hmem, hstop⟩ := hall
      have hfalse : w.stopped = false := by
        revert hstop
        cases w.stopped <;> simp
      obtain ⟨pre, post, hw⟩ := List.append_of_mem hmem
      have hdq : (dequeue s.q).2 = .queueDrained := by
        rw [dequeue_nil_not_open s.q hempty (by simp [hclosed])]
      have hstep : PoolStep s
          ⟨s.q, pre ++ ⟨w.executed, true⟩ :: post, s.enqueued, s.discarded⟩ :=
        .deqDrained s pre post w hw hfalse hdq
      have hfr := poolStep_closed_frozen _ _ hstep hclosed hempty
      have hlt : ((⟨s.q, pre ++ ⟨w.executed, true⟩ :: post, s.enqueued, s.discarded⟩ :
          PoolState).workers.countP fun w => !w.stopped) < k := by
        rw [← hk, hw]
        simp [List.countP_append, List.countP_cons, hfalse]
      obtain ⟨s', hsteps, hall', hexec⟩ :=
        ih _ hlt ⟨s.q, pre ++ ⟨w.executed, true⟩ :: post, s.enqueued, s.discarded⟩
          rfl hfr.1 hfr.2.1
      exact ⟨s', .head hstep hsteps, hall', hexec.trans hfr.2.2⟩

/-- C4: Immediate shutdown discards pending work: from any reachable
system state, calling `shutdown(Immediate)` closes the queue, empties the
buffer, and moves every one of the K buffered tasks to the discarded
list; under every continuation of the system the workers' execution
lists never grow again — so none of the K discarded tasks is ever
executed by any worker — and a continuation exists in which every worker
has exited its loop, so `awaitTermination` still completes. -/
theorem immediate_shutdown_discards (C n : Nat) (s : PoolState)
    (hr : PoolReachable C n s) :
    (shutdown s.q .Immediate).state = .CLOSED ∧
    (shutdown s.q .Immediate).buffer = [] ∧
    (∀ t ∈ s.q.buffer, t ∈ s.discarded ++ s.q.buffer) ∧
    (∀ s2, PoolSteps ⟨shutdown s.q .Immediate, s.workers, s.enqueued,
        s.discarded ++ s.q.buffer⟩ s2 → execAll s2 = execAll s) ∧
    (∃ s2, PoolSteps ⟨shutdown s.q .Immediate, s.workers, s.enqueued,
        s.discarded ++ s.q.buffer⟩ s2 ∧
      (∀ w ∈ s2.workers, w.stopped = true) ∧ execAll s2 = execAll s) := by
  have hinv2 := (poolReachable_inv C n s hr).2
  have hstate : (shutdown s.q .Immediate).state = .CLOSED := by
    by_cases hclosed : s.q.state = .CLOSED
    · rw [shutdown_immediate_closed s.q hclosed]
      exact hclosed
    · rw [shutdown_immediate_not_closed s.q hclosed]
  have hbuf : (shutdown s.q .Immediate).buffer = [] := by
    by_cases hclosed : s.q.state = .CLOSED
    · rw [shutdown_immediate_closed s.q hclosed]
      exact hinv2 hclosed
    · rw [shutdown_immediate_not_closed s.q hclosed]
  refine ⟨hstate, hbuf, fun t ht => List.mem_append.mpr (Or.inr ht), ?_, ?_⟩
  · intro s2 hsteps
    exact (poolSteps_closed_frozen _ s2 hsteps hstate hbuf).2.2
  · obtain ⟨s2, hsteps, hall, hexec⟩ :=
      pool_can_stop_all (s.workers.countP fun w => !w.stopped)
        ⟨shutdown s.q .Immediate, s.workers, s.enqueued, s.discarded ++ s.q.buffer⟩
        rfl hstate hbuf
    exact ⟨s2, hsteps, hall, hexec⟩

/-- Closed-form witness for `immediate_shutdown_discards`: immediate
shutdown with task 5 still buffered and one idle worker. -/
theorem immediate_shutdown_discards_witness :
    (shutdown (⟨2, [5], .OPEN⟩ : BoundedQueue Nat) .Immediate).state = .CLOSED ∧
    (shutdown (⟨2, [5], .OPEN⟩ : BoundedQueue Nat) .Immediate).buffer = [] ∧
    (∀ t ∈ ([5] : List Nat), t ∈ ([] : List Nat) ++ [5]) ∧
    (∀ s2, PoolSteps ⟨shutdown (⟨2, [5], .OPEN⟩ : BoundedQueue Nat) .Immediate,
        [⟨[], false⟩], [5], ([] : List Nat) ++ [5]⟩ s2 →
      execAll s2 = execAll ⟨⟨2, [5], .OPEN⟩, [⟨[], false⟩], [5], []⟩) ∧
    (∃ s2, PoolSteps ⟨shutdown (⟨2, [5], .OPEN⟩ : BoundedQueue Nat) .Immediate,
        [⟨[], false⟩], [5], ([] : List Nat) ++ [5]⟩ s2 ∧
      (∀ w ∈ s2.workers, w.stopped = true) ∧
      execAll s2 = execAll ⟨⟨2, [5], .OPEN⟩, [⟨[], false⟩], [5], []⟩) :=
  immediate_shutdown_discards 2 1 ⟨⟨2, [5], .OPEN⟩, [⟨[], false⟩], [5], []⟩
    (.step _ _ .init (.enq _ 5 _ rfl))
